import Mathlib

/-!
Verification of the content-extraction and inference-orchestration pipeline
of the quartz-ai audit service.  Strings are modelled as `List Char`; the
JavaScript regular-expression passes of `extractTextFromHTML` are embedded as
executable scanners with the same matching semantics, and the route handler
is modelled as a function over an explicit environment capturing the outcomes
of the external collaborators (request body parsing, the network fetch and
the inference backends).
-/

namespace QuartzAI

abbrev Str := List Char

/-- JavaScript word character, as used by the regex `\b` boundary: `[A-Za-z0-9_]`. -/
def isWordChar (c : Char) : Bool := c.isAlphanum || c = '_'

/-- whitespace recognised by JavaScript `String.prototype.trim`. -/
def isJsSpace (c : Char) : Bool :=
  c = ' ' || c = '\t' || c = '\n' || c = '\r' || c = '\x0b' || c = '\x0c' ||
  c = '\u00A0' || c = '\u1680' || ('\u2000' ≤ c && c ≤ '\u200A') ||
  c = '\u2028' || c = '\u2029' || c = '\u202F' || c = '\u205F' ||
  c = '\u3000' || c = '\uFEFF'

/-- model of JavaScript `String.prototype.trim`. -/
def jsTrim (l : Str) : Str :=
  ((l.dropWhile isJsSpace).reverse.dropWhile isJsSpace).reverse

/-- case-insensitive literal prefix: on success returns the rest of the input. -/
def ciPrefixRest : Str → Str → Option Str
  | [], l => some l
  | _ :: _, [] => none
  | p :: ps, c :: cs => if c.toLower = p.toLower then ciPrefixRest ps cs else none

/-- split the input at the first (case-insensitive) occurrence of `pat`,
returning the text before it and the text after it. -/
def splitAtCi (pat : Str) : Str → Option (Str × Str)
  | [] =>
    match ciPrefixRest pat [] with
    | some r => some ([], r)
    | none => none
  | c :: cs =>
    match ciPrefixRest pat (c :: cs) with
    | some r => some ([], r)
    | none => (splitAtCi pat cs).map fun pr => (c :: pr.1, pr.2)

/-- line terminators, which the dot of a JavaScript regex never matches. -/
def isLineTerm (c : Char) : Bool :=
  c = '\n' || c = '\r' || c = '\u2028' || c = '\u2029'

/-- like `splitAtCi` but fails if a line terminator occurs before the pattern
(the behaviour of a lazy dot that must reach the closing literal). -/
def splitAtCiNoNl (pat : Str) : Str → Option (Str × Str)
  | [] =>
    match ciPrefixRest pat [] with
    | some r => some ([], r)
    | none => none
  | c :: cs =>
    match ciPrefixRest pat (c :: cs) with
    | some r => some ([], r)
    | none =>
      if isLineTerm c then none
      else (splitAtCiNoNl pat cs).map fun pr => (c :: pr.1, pr.2)

/-- repeated non-overlapping scan, the semantics of `matchAll` with the `g`
flag: try a match at each position, emit it and resume after its end, or
advance one character.  The fuel is instantiated with the input length; every
matcher used below consumes at least one character per match. -/
def scanAll {α : Type} (tryM : Str → Option (α × Str)) : Nat → Str → List α
  | 0, _ => []
  | _ + 1, [] => []
  | fuel + 1, c :: tl =>
    match tryM (c :: tl) with
    | some (a, rest) => a :: scanAll tryM fuel rest
    | none => scanAll tryM fuel tl

/-- matcher for `openTag[^>]*>([\s\S]*?)closeTag` (case-insensitive): returns
the lazily captured body, the total match length and the rest of the input. -/
def tryBlock (openTag closeTag : Str) (l : Str) : Option (Str × Nat × Str) :=
  match ciPrefixRest openTag l with
  | none => none
  | some l1 =>
    let attrs := l1.takeWhile (fun c => c ≠ '>')
    match l1.drop attrs.length with
    | [] => none
    | c :: l2 =>
      if c = '>' then
        match splitAtCi closeTag l2 with
        | none => none
        | some (body, rest) =>
          some (body, openTag.length + attrs.length + 1 + body.length + closeTag.length, rest)
      else none

/-- matcher for `openTag[^>]+>` (case-insensitive): returns the whole matched
text (as in `match[0]`) and the rest of the input. -/
def tryAngle (openTag : Str) (l : Str) : Option (Str × Str) :=
  match ciPrefixRest openTag l with
  | none => none
  | some l1 =>
    let attrs := l1.takeWhile (fun c => c ≠ '>')
    if attrs.isEmpty then none
    else
      match l1.drop attrs.length with
      | [] => none
      | c :: l2 =>
        if c = '>' then some (l.take (openTag.length + attrs.length + 1), l2) else none

/-- attempt the tail of the link regex after a candidate `href=` at offset `p`
of `l1` (the text following `<a`): quote, non-empty quoted value, quote,
remaining attributes, `>`, then the lazy dot up to `</a>`.  Returns the href
value, the raw link text and the end offset of the match within `l1`. -/
def linkAfterHref (l1 : Str) (p : Nat) : Option (Str × Str × Nat) :=
  match l1.drop (p + 5) with
  | [] => none
  | q1 :: l3 =>
    if q1 = '"' ∨ q1 = '\x27' then
      let href := l3.takeWhile (fun c => c ≠ '"' ∧ c ≠ '\x27')
      if href.isEmpty then none
      else
        match l3.drop href.length with
        | [] => none
        | q2 :: l4 =>
          if q2 = '"' ∨ q2 = '\x27' then
            let attrs2 := l4.takeWhile (fun c => c ≠ '>')
            match l4.drop attrs2.length with
            | [] => none
            | c :: l5 =>
              if c = '>' then
                match splitAtCiNoNl ['<', '/', 'a', '>'] l5 with
                | none => none
                | some (txt, _) =>
                  some (href, txt, p + 5 + 1 + href.length + 1 + attrs2.length + 1 + txt.length + 4)
              else none
          else none
    else none

/-- backtracking of the greedy `[^>]+` before `href=`: candidate offsets are
tried from the largest downwards, exactly as the regex engine does. -/
def tryHrefCands (l1 : Str) : Nat → Option (Str × Str × Nat)
  | 0 => none
  | k + 1 =>
    if (ciPrefixRest ['h', 'r', 'e', 'f', '='] (l1.drop (k + 1))).isSome then
      match linkAfterHref l1 (k + 1) with
      | some r => some r
      | none => tryHrefCands l1 k
    else tryHrefCands l1 k

/-- matcher for the link regex of the extractor, capturing href and raw text. -/
def tryLinkM (l : Str) : Option ((Str × Str) × Str) :=
  match ciPrefixRest ['<', 'a'] l with
  | none => none
  | some l1 =>
    let run := l1.takeWhile (fun c => c ≠ '>')
    match tryHrefCands l1 run.length with
    | none => none
    | some (href, txt, endOff) => some ((href, txt), l1.drop endOff)

/-- model of `.replace` of the regex matching a `<`, one or more non-`>`
characters and a `>`, each occurrence replaced by `rep`. -/
def stripTagsAux (rep : Str) : Nat → Str → Str
  | 0, l => l
  | _ + 1, [] => []
  | fuel + 1, c :: tl =>
    if c = '<' then
      let attrs := tl.takeWhile (fun x => x ≠ '>')
      if attrs.isEmpty then c :: stripTagsAux rep fuel tl
      else
        match tl.drop attrs.length with
        | _ :: rest => rep ++ stripTagsAux rep fuel rest
        | [] => c :: stripTagsAux rep fuel tl
    else c :: stripTagsAux rep fuel tl

def stripTagsAll (rep : Str) (l : Str) : Str := stripTagsAux rep l.length l

/-- model of the block-deleting `.replace` used by the fallback path: delete
from an occurrence of `openTag` (with a word-boundary check when `cb` is
true) to the first following `closeTag`; occurrences without a closing
literal are left untouched. -/
def stripBlocksAux (openTag closeTag : Str) (cb : Bool) : Nat → Str → Str
  | 0, l => l
  | _ + 1, [] => []
  | fuel + 1, c :: tl =>
    match ciPrefixRest openTag (c :: tl) with
    | some l1 =>
      let bOk := if cb then
          match l1 with
          | [] => true
          | d :: _ => !(isWordChar d)
        else true
      if bOk then
        match splitAtCi closeTag l1 with
        | some (_, rest) => stripBlocksAux openTag closeTag cb fuel rest
        | none => c :: stripBlocksAux openTag closeTag cb fuel tl
      else c :: stripBlocksAux openTag closeTag cb fuel tl
    | none => c :: stripBlocksAux openTag closeTag cb fuel tl

def stripBlocksAll (openTag closeTag : Str) (cb : Bool) (l : Str) : Str :=
  stripBlocksAux openTag closeTag cb l.length l

/-- the cleaned document of the fallback path: scripts, styles and comments
removed, in that order (three sequential replaces). -/
def cleanHtml (html : Str) : Str :=
  let s1 := stripBlocksAll "<script".data "</script>".data true html
  let s2 := stripBlocksAll "<style".data "</style>".data true s1
  stripBlocksAll "<!--".data "-->".data false s2

def scriptMatches (html : Str) : List Str :=
  scanAll (fun l => (tryBlock "<script".data "</script>".data l).map fun r => (r.1, r.2.2))
    html.length html

def metaMatches (html : Str) : List Str :=
  scanAll (fun l => tryAngle "<meta".data l) html.length html

def linkMatches (html : Str) : List (Str × Str) :=
  scanAll tryLinkM html.length html

def formMatches (html : Str) : List Str :=
  scanAll (fun l => (tryBlock "<form".data "</form>".data l).map fun r => (l.take r.2.1, r.2.2))
    html.length html

def inputMatches (html : Str) : List Str :=
  scanAll (fun l => tryAngle "<input".data l) html.length html

def tagBlockMatches (tag : Str) (html : Str) : List Str :=
  scanAll
    (fun l => (tryBlock ('<' :: tag) ('<' :: '/' :: (tag ++ ['>'])) l).map fun r => (r.1, r.2.2))
    html.length html

/-- one tagged unit of extracted text, in emission order. -/
inductive Segment where
  | script (body : Str)
  | metaTag (tag : Str)
  | link (href text : Str)
  | form (full : Str)
  | inputTag (tag : Str)
  | tagText (label : Str) (content : Str)
deriving DecidableEq

/-- pass 1 of `extractTextFromHTML`: a script body is emitted when the count
of already emitted scripts is below 10 and its trimmed content has length
strictly between 0 and 2000; rejected matches do not increase the count. -/
def scriptPassAux : List Str → Nat → List Segment
  | [], _ => []
  | m :: ms, count =>
    if count < 10 then
      let sc := jsTrim m
      if 0 < sc.length ∧ sc.length < 2000 then
        Segment.script sc :: scriptPassAux ms (count + 1)
      else
        scriptPassAux ms count
    else
      scriptPassAux ms count

/-- pass 3 of `extractTextFromHTML`: every match below the count of 50 is
emitted, with the link text tag-stripped and trimmed at emission. -/
def linkPassAux : List (Str × Str) → Nat → List Segment
  | [], _ => []
  | (h, t) :: ms, count =>
    if count < 50 then
      Segment.link h (jsTrim (stripTagsAll [] t)) :: linkPassAux ms (count + 1)
    else
      linkPassAux ms count

/-- pass 6 of `extractTextFromHTML` for one tag: tag-strip (replacing by a
space), trim, and keep only contents of length greater than 3. -/
def tagPassOne (label : Str) (ms : List Str) : List Segment :=
  ms.filterMap fun m =>
    let content := jsTrim (stripTagsAll [' '] m)
    if content ≠ [] ∧ 3 < content.length then some (Segment.tagText label content) else none

def importantTags : List Str :=
  ["title".data, "h1".data, "h2".data, "h3".data, "h4".data, "h5".data,
   "h6".data, "p".data, "button".data, "label".data]

def tagSegments (html : Str) : List Segment :=
  (importantTags.map fun tag => tagPassOne (tag.map Char.toUpper) (tagBlockMatches tag html)).flatten

/-- the six structured passes, in the order the source appends them. -/
def structuredSegments (html : Str) : List Segment :=
  scriptPassAux (scriptMatches html) 0 ++
  (metaMatches html).map Segment.metaTag ++
  linkPassAux (linkMatches html) 0 ++
  (formMatches html).map Segment.form ++
  (inputMatches html).map Segment.inputTag ++
  tagSegments html

def renderSegment : Segment → Str
  | .script b => "[SCRIPT]\n".data ++ b ++ "\n[/SCRIPT]\n\n".data
  | .metaTag t => "[META] ".data ++ t ++ "\n".data
  | .link h t => "[LINK] href=\"".data ++ h ++ "\" text=\"".data ++ t ++ "\"\n".data
  | .form f => "[FORM]\n".data ++ f ++ "\n[/FORM]\n\n".data
  | .inputTag t => "[INPUT] ".data ++ t ++ "\n".data
  | .tagText lab c => '[' :: lab ++ "] ".data ++ c ++ "\n".data

def renderAll (segs : List Segment) : Str := (segs.map renderSegment).flatten

/-- cumulative output of the structured passes, before the fallback check. -/
def structuredText (html : Str) : Str := renderAll (structuredSegments html)

/-- the fallback block: cleaned raw document truncated to 30000 characters,
wrapped as a single HTML CONTENT segment. -/
def fallbackBlock (html : Str) : Str :=
  "[HTML CONTENT]\n".data ++ (cleanHtml html).take 30000 ++ "\n[/HTML CONTENT]".data

/-- model of `extractTextFromHTML`: structured passes, fallback when the
trimmed cumulative output is shorter than 500 characters, final hard
truncation to 100000 characters. -/
def extractTextFromHTML (html : Str) : Str :=
  let extractedText := structuredText html
  let final := if (jsTrim extractedText).length < 500 then fallbackBlock html else extractedText
  final.take 100000

/-- decides whether `pat` is a prefix of the second argument. -/
def seqStartsWith : Str → Str → Bool
  | [], _ => true
  | _ :: _, [] => false
  | p :: ps, c :: cs => p = c && seqStartsWith ps cs

/-- decides whether `pat` occurs as a contiguous subsequence (substring). -/
def containsSeq (pat : Str) : Str → Bool
  | [] => seqStartsWith pat []
  | c :: tl => seqStartsWith pat (c :: tl) || containsSeq pat tl

/-- outcome of one call to an inference backend: text returned, or an
exception with the given message. -/
inductive ModelOutcome where
  | ok (text : Str)
  | err (msg : Str)
deriving DecidableEq

/-- the diagnostic log entry appended in the catch branch of the model loop. -/
def logEntry (name msg : Str) : Str :=
  '[' :: name ++ "]: ".data ++ msg ++ ". ".data

/-- the message prefix of the error thrown when no model produced text. -/
def exhaustMsg : Str := "Google bloqueó todos los modelos (Límite 0). ".data

/-- result of the model-fallback loop including, for observation, the list of
backends actually invoked and the accumulated diagnostic log. -/
structure RunResult where
  outcome : Except Str Str
  attempted : List Str
  errorLog : Str

/-- one step per backend: a thrown error appends a log entry and continues;
empty returned text continues without touching the log; non-empty text breaks
out of the loop at once; an exhausted list throws the aggregate error. -/
def runModelsAux : List (Str × ModelOutcome) → Str → List Str → RunResult
  | [], log, att => ⟨.error (exhaustMsg ++ log), att, log⟩
  | (name, .ok t) :: rest, log, att =>
    if t.isEmpty then runModelsAux rest log (att ++ [name])
    else ⟨.ok t, att ++ [name], log⟩
  | (name, .err m) :: rest, log, att =>
    runModelsAux rest (log ++ logEntry name m) (att ++ [name])

/-- model of the sequential model-fallback loop of the POST handler. -/
def runModels (backends : List (Str × ModelOutcome)) : RunResult :=
  runModelsAux backends [] []

/-- split at the first occurrence of character `c`. -/
def splitFirst (c : Char) : Str → Option (Str × Str)
  | [] => none
  | x :: xs => if x = c then some ([], xs) else (splitFirst c xs).map fun p => (x :: p.1, p.2)

/-- model of the JSON-boundary extraction of the handler: the match of the
greedy brace regex is the span from the first opening brace to the last
closing brace after it; without a match the raw text is used unchanged. -/
def extractJsonCandidate (text : Str) : Str :=
  match splitFirst '\x7b' text with
  | none => text
  | some (_, suf) =>
    match splitFirst '\x7d' suf.reverse with
    | none => text
    | some (_, beforeRev) => '\x7b' :: beforeRev.reverse ++ ['\x7d']

/-- the cause-specific error message for a non-success HTTP status in
`scrapeWebsite`. -/
def httpStatusMsg (status : Nat) (statusText : Str) : Str :=
  if status = 403 then
    "HTTP 403: Acceso denegado. El sitio puede estar bloqueando bots. Considerá usar Firecrawl o Puppeteer para sitios protegidos.".data
  else if status = 429 then
    "HTTP 429: Demasiadas solicitudes. El sitio está limitando el acceso. Esperá unos minutos e intentá de nuevo.".data
  else if status = 400 then
    "HTTP 400: Solicitud inválida. El sitio puede estar rechazando la conexión. Verificá que la URL sea correcta.".data
  else
    "HTTP ".data ++ (Nat.repr status).data ++ ": ".data ++ statusText

/-- the status check of `scrapeWebsite`: a response in the success range is
accepted, any other raises the classified error at once (no retry). -/
def checkResponseStatus (status : Nat) (statusText : Str) : Except Str Unit :=
  if 200 ≤ status ∧ status ≤ 299 then .ok () else .error (httpStatusMsg status statusText)

/-- whitespace accepted between JSON tokens. -/
def isJsonWs (c : Char) : Bool := c = ' ' || c = '\t' || c = '\n' || c = '\r'

def skipWs (l : Str) : Str := l.dropWhile isJsonWs

def isHexDigit (c : Char) : Bool :=
  c.isDigit || ('a' ≤ c ∧ c ≤ 'f') || ('A' ≤ c ∧ c ≤ 'F')

/-- body of a JSON string after the opening quote; returns the rest after the
closing quote. -/
def jsonStringRest : Nat → Str → Option Str
  | 0, _ => none
  | fuel + 1, l =>
    match l with
    | [] => none
    | c :: rest =>
      if c = '"' then some rest
      else if c = '\\' then
        match rest with
        | [] => none
        | e :: rest2 =>
          if e = '"' || e = '\\' || e = '/' || e = 'b' || e = 'f' || e = 'n' || e = 'r' || e = 't' then
            jsonStringRest fuel rest2
          else if e = 'u' then
            match rest2 with
            | h1 :: h2 :: h3 :: h4 :: rest3 =>
              if isHexDigit h1 && isHexDigit h2 && isHexDigit h3 && isHexDigit h4 then
                jsonStringRest fuel rest3
              else none
            | _ => none
          else none
      else if c.toNat < 32 then none
      else jsonStringRest fuel rest

/-- fraction and exponent parts of a JSON number. -/
def jsonFracExp (l : Str) : Option Str :=
  let afterFrac : Option Str :=
    match l with
    | '.' :: t =>
      match t with
      | d :: t2 => if d.isDigit then some ((d :: t2).dropWhile Char.isDigit) else none
      | [] => none
    | _ => some l
  match afterFrac with
  | none => none
  | some l2 =>
    match l2 with
    | e :: t =>
      if e = 'e' || e = 'E' then
        let t2 := match t with
          | s :: tt => if s = '+' || s = '-' then tt else s :: tt
          | [] => []
        match t2 with
        | d :: tt => if d.isDigit then some ((d :: tt).dropWhile Char.isDigit) else none
        | [] => none
      else some l2
    | [] => some []

/-- a JSON number starting at the head of the input. -/
def jsonNumberRest (l : Str) : Option Str :=
  let l1 := match l with
    | '-' :: t => t
    | _ => l
  match l1 with
  | [] => none
  | c :: t =>
    if c = '0' then jsonFracExp t
    else if c.isDigit then jsonFracExp (t.dropWhile Char.isDigit)
    else none

mutual

/-- a JSON value starting at the head of the input (whitespace already
skipped); returns the rest of the input after the value. -/
def jsonValueRest : Nat → Str → Option Str
  | 0, _ => none
  | fuel + 1, l =>
    match l with
    | [] => none
    | c :: rest =>
      if c = '"' then jsonStringRest rest.length rest
      else if c = '\x7b' then jsonObjectRest fuel (skipWs rest)
      else if c = '[' then jsonArrayRest fuel (skipWs rest)
      else if c = 't' then
        if seqStartsWith "rue".data rest then some (rest.drop 3) else none
      else if c = 'f' then
        if seqStartsWith "alse".data rest then some (rest.drop 4) else none
      else if c = 'n' then
        if seqStartsWith "ull".data rest then some (rest.drop 3) else none
      else jsonNumberRest (c :: rest)

/-- inside an object, directly after the opening brace and whitespace. -/
def jsonObjectRest : Nat → Str → Option Str
  | 0, _ => none
  | fuel + 1, l =>
    match l with
    | [] => none
    | c :: rest =>
      if c = '\x7d' then some rest
      else jsonMemberRest fuel (c :: rest)

/-- one object member (string, colon, value) followed by a comma and further
members or by the closing brace. -/
def jsonMemberRest : Nat → Str → Option Str
  | 0, _ => none
  | fuel + 1, l =>
    match l with
    | '"' :: rest =>
      match jsonStringRest rest.length rest with
      | none => none
      | some r1 =>
        match skipWs r1 with
        | ':' :: r2 =>
          match jsonValueRest fuel (skipWs r2) with
          | none => none
          | some r3 =>
            match skipWs r3 with
            | ',' :: r4 => jsonMemberRest fuel (skipWs r4)
            | c :: r4 => if c = '\x7d' then some r4 else none
            | [] => none
        | _ => none
    | _ => none

/-- inside an array, directly after the opening bracket and whitespace. -/
def jsonArrayRest : Nat → Str → Option Str
  | 0, _ => none
  | fuel + 1, l =>
    match l with
    | [] => none
    | c :: rest =>
      if c = ']' then some rest
      else jsonElemRest fuel (c :: rest)

/-- one array element followed by a comma and further elements or by the
closing bracket. -/
def jsonElemRest : Nat → Str → Option Str
  | 0, _ => none
  | fuel + 1, l =>
    match jsonValueRest fuel l with
    | none => none
    | some r1 =>
      match skipWs r1 with
      | ',' :: r2 => jsonElemRest fuel (skipWs r2)
      | ']' :: r2 => some r2
      | _ => none

end

/-- decides whether `JSON.parse` succeeds on the input. -/
def jsonParses (l : Str) : Bool :=
  match jsonValueRest (3 * l.length + 3) (skipWs l) with
  | some rest => (skipWs rest).isEmpty
  | none => false

/-- the fixed ordered fallback list of the handler. -/
def modelIds : List Str :=
  ["gemini-3-flash-preview".data, "gemini-2.5-flash-lite".data, "gemini-2.5-flash".data]

/-- a passed test as carried in response bodies. -/
structure TestResult where
  category : Str
  test : Str
  status : Str
deriving DecidableEq

/-- a defect as carried in response bodies. -/
structure Defect where
  id : Str
  category : Str
  title : Str
  description : Str
  priority : Str
deriving DecidableEq

/-- the JSON body of a handler response. -/
inductive ResponseBody where
  | keyMissing (error : Str)
  | errObj (error : Str) (passedTests : List TestResult) (defects : List Defect) (testScript : Str)
  | auditJson (raw : Str)
  | quota (error causa solucion : Str)
deriving DecidableEq

structure HttpResponse where
  status : Nat
  body : ResponseBody
deriving DecidableEq

/-- a handler response together with the backends invoked while producing it. -/
structure HandlerResult where
  response : HttpResponse
  invoked : List Str
deriving DecidableEq

/-- parsed request body. -/
structure RequestBody where
  reqType : Str
  content : Str
deriving DecidableEq

/-- outcomes of the external collaborators of one request: whether the
credential is configured, the result of parsing the request body, the result
of `scrapeWebsite` (consulted only for url requests) and the behaviour of
each inference backend. -/
structure Env where
  hasApiKey : Bool
  bodyJson : Except Unit RequestBody
  scrapeResult : Except Str Str
  behavior : Str -> ModelOutcome

/-- the fixed body of the 429 response produced by the top-level catch. -/
def quotaBody : ResponseBody :=
  .quota "CUOTA AGOTADA (L\u00cdMITE 0)".data
    "Google restringi\u00f3 el acceso gratuito en Argentina este mes.".data
    "1. Entr\u00e1 a https://aistudio.google.com/ 2. And\u00e1 a \x27Settings\x27 > \x27Billing\x27 3. Vincul\u00e1 una tarjeta. Te dar\u00e1n 1500 consultas gratis al mes, pero sin tarjeta el l\u00edmite es 0.".data

/-- the 400 body returned when scraping fails, with the JavaScript
or-default on an empty message. -/
def scrapeFailBody (msg : Str) : ResponseBody :=
  .errObj (if msg.isEmpty then "No se pudo acceder a la web".data else msg) [] [] []

/-- the 400 body returned for empty content. -/
def emptyContentBody : ResponseBody :=
  .errObj "El contenido est\u00e1 vac\u00edo. No se puede analizar.".data [] [] []

/-- model of the POST handler of the audit route: credential check, optional
scraping for url requests, the empty-content guard, the model-fallback loop,
JSON-boundary extraction and parse.  Any exception inside the try block
(request-body parse failure, loop exhaustion, JSON parse failure) lands in
the catch, which answers 429 with the fixed quota body. -/
def handleAudit (env : Env) : HandlerResult :=
  if env.hasApiKey = false then
    ⟨⟨500, .keyMissing "Falta API KEY".data⟩, []⟩
  else
    match env.bodyJson with
    | .error _ => ⟨⟨429, quotaBody⟩, []⟩
    | .ok body =>
      let step : Except HttpResponse Str :=
        if body.reqType = "url".data then
          match env.scrapeResult with
          | .error msg => .error ⟨400, scrapeFailBody msg⟩
          | .ok scraped => .ok scraped
        else .ok body.content
      match step with
      | .error resp => ⟨resp, []⟩
      | .ok contentToAnalyze =>
        if (jsTrim contentToAnalyze).isEmpty then
          ⟨⟨400, emptyContentBody⟩, []⟩
        else
          let run := runModels (modelIds.map fun n => (n, env.behavior n))
          match run.outcome with
          | .error _ => ⟨⟨429, quotaBody⟩, run.attempted⟩
          | .ok text =>
            let finalJson := extractJsonCandidate text
            if jsonParses finalJson then ⟨⟨200, .auditJson finalJson⟩, run.attempted⟩
            else ⟨⟨429, quotaBody⟩, run.attempted⟩

/-- discriminator for script segments. -/
def isScriptSeg : Segment → Bool
  | .script _ => true
  | _ => false

/-- discriminator for link segments. -/
def isLinkSeg : Segment → Bool
  | .link _ _ => true
  | _ => false

/-- the content the handler goes on to analyse, when it reaches that point:
the scraped text for url requests, the submitted content otherwise. -/
def contentToAnalyzeOf (env : Env) (b : RequestBody) : Option Str :=
  if b.reqType = "url".data then
    match env.scrapeResult with
    | .error _ => none
    | .ok scraped => some scraped
  else some b.content

/-- environment in which every backend throws. -/
def envAllThrow : Env :=
  ⟨true, .ok ⟨"code".data, "x".data⟩, .ok [],
    fun _ => .err "429 Too Many Requests".data⟩

/-- environment in which the first backend succeeds but its reply is not
parseable JSON. -/
def envBadReply : Env :=
  ⟨true, .ok ⟨"code".data, "x".data⟩, .ok [], fun _ => .ok "hello".data⟩

/-- environment for a url request whose scrape succeeds but every backend
throws. -/
def envUrlThrow : Env :=
  ⟨true, .ok ⟨"url".data, "example.com".data⟩, .ok "scraped page content".data,
    fun _ => .err "429 Too Many Requests".data⟩

/-- environment submitting a whitespace-only code snippet. -/
def envBlankSnippet : Env :=
  ⟨true, .ok ⟨"code".data, "   ".data⟩, .ok [], fun _ => .err "quota".data⟩

/-! ### Helper lemmas -/

theorem length_dropWhile_le_qa (p : Char → Bool) (l : Str) :
    (l.dropWhile p).length ≤ l.length := by
  induction l with
  | nil => simp
  | cons c tl ih =>
    by_cases h : p c
    · simp [List.dropWhile, h]; omega
    · simp [List.dropWhile, h]

theorem length_jsTrim_le (l : Str) : (jsTrim l).length ≤ l.length := by
  unfold jsTrim
  calc ((l.dropWhile isJsSpace).reverse.dropWhile isJsSpace).reverse.length
      = ((l.dropWhile isJsSpace).reverse.dropWhile isJsSpace).length := List.length_reverse _
    _ ≤ (l.dropWhile isJsSpace).reverse.length := length_dropWhile_le_qa _ _
    _ = (l.dropWhile isJsSpace).length := List.length_reverse _
    _ ≤ l.length := length_dropWhile_le_qa _ _

theorem scriptPassAux_eq (ms : List Str) : ∀ c, c ≤ 10 →
    scriptPassAux ms c =
      (((ms.map jsTrim).filter fun s => decide (0 < s.length ∧ s.length < 2000)).take
        (10 - c)).map Segment.script := by
  induction ms with
  | nil => intro c hc; simp [scriptPassAux]
  | cons m ms ih =>
    intro c hc
    by_cases h10 : c < 10
    · by_cases hg : 0 < (jsTrim m).length ∧ (jsTrim m).length < 2000
      · have h1 : scriptPassAux (m :: ms) c = Segment.script (jsTrim m) :: scriptPassAux ms (c + 1) := by
          simp [scriptPassAux, h10, hg]
        rw [h1, ih (c + 1) (by omega)]
        have h2 : (10 : Nat) - c = (10 - (c + 1)) + 1 := by omega
        simp [List.filter_cons, hg, h2, List.take_succ_cons]
      · have h1 : scriptPassAux (m :: ms) c = scriptPassAux ms c := by
          simp [scriptPassAux, h10, hg]
        rw [h1, ih c hc]
        simp [List.filter_cons, hg]
    · have hc10 : c = 10 := by omega
      subst hc10
      have h1 : scriptPassAux (m :: ms) 10 = scriptPassAux ms 10 := by
        simp [scriptPassAux]
      rw [h1, ih 10 (by omega)]
      simp

theorem linkPassAux_eq (ms : List (Str × Str)) : ∀ c, c ≤ 50 →
    linkPassAux ms c =
      (ms.take (50 - c)).map fun p => Segment.link p.1 (jsTrim (stripTagsAll [] p.2)) := by
  induction ms with
  | nil => intro c hc; simp [linkPassAux]
  | cons m ms ih =>
    intro c hc
    by_cases h50 : c < 50
    · have h1 : linkPassAux (m :: ms) c =
          Segment.link m.1 (jsTrim (stripTagsAll [] m.2)) :: linkPassAux ms (c + 1) := by
        simp [linkPassAux, h50]
      rw [h1, ih (c + 1) (by omega)]
      have h2 : (50 : Nat) - c = (50 - (c + 1)) + 1 := by omega
      simp [h2, List.take_succ_cons]
    · have hc50 : c = 50 := by omega
      subst hc50
      have h1 : linkPassAux (m :: ms) 50 = linkPassAux ms 50 := by
        simp [linkPassAux]
      rw [h1, ih 50 (by omega)]
      simp

theorem countP_map_const_false {α : Type} (f : α → Segment) (p : Segment → Bool)
    (h : ∀ a, p (f a) = false) (l : List α) : (l.map f).countP p = 0 := by
  rw [List.countP_eq_zero]
  intro x hx
  obtain ⟨a, _, rfl⟩ := List.mem_map.1 hx
  simp [h a]

theorem tagSegments_shape (html : Str) :
    ∀ s ∈ tagSegments html, ∃ lab c, s = Segment.tagText lab c := by
  intro s hs
  unfold tagSegments at hs
  obtain ⟨l, hl, hsl⟩ := List.mem_flatten.1 hs
  obtain ⟨tag, _, rfl⟩ := List.mem_map.1 hl
  obtain ⟨m, _, hm⟩ := List.mem_filterMap.1 hsl
  simp only [tagPassOne] at hm
  split at hm
  · exact ⟨_, _, (Option.some.inj hm).symm⟩
  · exact absurd hm (by simp)

/-! ### Claim theorems: structural extraction -/

/-- C1: for every HTML input, the output of `extractTextFromHTML` has length
at most 100000 characters, on the structured-passes path and on the fallback
path alike (the final hard truncation applies to whichever branch was taken). -/
theorem C1_extract_length_le (html : Str) :
    (extractTextFromHTML html).length ≤ 100000 := by
  show ((if (jsTrim (structuredText html)).length < 500 then fallbackBlock html
         else structuredText html).take 100000).length ≤ 100000
  exact List.length_take_le _ _

/-- C4: whenever the cumulative structured-pass output is under 500
characters, the extraction result is exactly one HTML CONTENT fallback block
containing the raw document with script blocks, style blocks and comments
removed and truncated to 30000 characters, and none of the partial
structured segments. -/
theorem C4_extract_fallback (html : Str)
    (h : (structuredText html).length < 500) :
    extractTextFromHTML html =
      "[HTML CONTENT]\n".data ++ (cleanHtml html).take 30000 ++ "\n[/HTML CONTENT]".data := by
  have htrim : (jsTrim (structuredText html)).length < 500 :=
    lt_of_le_of_lt (length_jsTrim_le _) h
  have hstep : extractTextFromHTML html = (fallbackBlock html).take 100000 := by
    show ((if (jsTrim (structuredText html)).length < 500 then fallbackBlock html
           else structuredText html).take 100000) = (fallbackBlock html).take 100000
    rw [if_pos htrim]
  have hlen : (fallbackBlock html).length ≤ 100000 := by
    have h1 : ("[HTML CONTENT]\n".data).length = 15 := rfl
    have h2 : ("\n[/HTML CONTENT]".data).length = 16 := rfl
    have h3 : ((cleanHtml html).take 30000).length ≤ 30000 := List.length_take_le _ _
    unfold fallbackBlock
    rw [List.length_append, List.length_append, h1, h2]
    omega
  rw [hstep, List.take_of_length_le hlen]
  rfl

/-- C10: in the script extraction pass, a matched script body is emitted
exactly when its trimmed content is non-empty and strictly shorter than 2000
characters and fewer than 10 segments were emitted before it; the emitted
segments are the first ten trimmed bodies passing the length filter, so a
rejected match does not consume the ten-segment budget and a qualifying
script after ten disqualified matches is still emitted. -/
theorem C10_script_pass_budget (html : Str) :
    scriptPassAux (scriptMatches html) 0 =
      ((((scriptMatches html).map jsTrim).filter
          fun s => decide (0 < s.length ∧ s.length < 2000)).take 10).map Segment.script := by
  simpa using scriptPassAux_eq (scriptMatches html) 0 (by omega)

/-- C5: for every HTML input, the structural extraction emits at most 10
script segments, each emitted script body strictly shorter than 2000
characters, and at most 50 link entries. -/
theorem C5_extraction_caps (html : Str) :
    (structuredSegments html).countP isScriptSeg ≤ 10 ∧
    (∀ b, Segment.script b ∈ structuredSegments html → b.length < 2000) ∧
    (structuredSegments html).countP isLinkSeg ≤ 50 := by
  have hscript := scriptPassAux_eq (scriptMatches html) 0 (by omega)
  have hlink := linkPassAux_eq (linkMatches html) 0 (by omega)
  have htags := tagSegments_shape html
  have hmeta0 : ∀ p : Segment → Bool, (∀ a, p (Segment.metaTag a) = false) →
      ((metaMatches html).map Segment.metaTag).countP p = 0 :=
    fun p hp => countP_map_const_false _ p hp _
  have hform0 : ∀ p : Segment → Bool, (∀ a, p (Segment.form a) = false) →
      ((formMatches html).map Segment.form).countP p = 0 :=
    fun p hp => countP_map_const_false _ p hp _
  have hinput0 : ∀ p : Segment → Bool, (∀ a, p (Segment.inputTag a) = false) →
      ((inputMatches html).map Segment.inputTag).countP p = 0 :=
    fun p hp => countP_map_const_false _ p hp _
  have htag0 : ∀ p : Segment → Bool, (∀ lab c, p (Segment.tagText lab c) = false) →
      (tagSegments html).countP p = 0 := by
    intro p hp
    rw [List.countP_eq_zero]
    intro s hs
    obtain ⟨lab, c, rfl⟩ := htags s hs
    simp [hp]
  refine ⟨?_, ?_, ?_⟩
  · unfold structuredSegments
    rw [List.countP_append, List.countP_append, List.countP_append,
        List.countP_append, List.countP_append]
    have ha : (scriptPassAux (scriptMatches html) 0).countP isScriptSeg ≤ 10 := by
      calc (scriptPassAux (scriptMatches html) 0).countP isScriptSeg
          ≤ (scriptPassAux (scriptMatches html) 0).length := List.countP_le_length _
        _ ≤ 10 := by
            rw [hscript, List.length_map]
            simp [List.length_take_le]
    have hb := hmeta0 isScriptSeg (fun _ => rfl)
    have hc : (linkPassAux (linkMatches html) 0).countP isScriptSeg = 0 := by
      rw [hlink]; exact countP_map_const_false _ _ (fun _ => rfl) _
    have hd := hform0 isScriptSeg (fun _ => rfl)
    have he := hinput0 isScriptSeg (fun _ => rfl)
    have hf := htag0 isScriptSeg (fun _ _ => rfl)
    omega
  · intro b hb
    unfold structuredSegments at hb
    rcases List.mem_append.1 hb with hb | hb
    rcases List.mem_append.1 hb with hb | hb
    rcases List.mem_append.1 hb with hb | hb
    rcases List.mem_append.1 hb with hb | hb
    rcases List.mem_append.1 hb with hb | hb
    · rw [hscript] at hb
      obtain ⟨s, hsmem, hseq⟩ := List.mem_map.1 hb
      obtain rfl : s = b := by injection hseq
      have hfil := List.of_mem_filter (List.mem_of_mem_take hsmem)
      have := of_decide_eq_true hfil
      omega
    · obtain ⟨a, _, h⟩ := List.mem_map.1 hb; cases h
    · rw [hlink] at hb
      obtain ⟨a, _, h⟩ := List.mem_map.1 hb; cases h
    · obtain ⟨a, _, h⟩ := List.mem_map.1 hb; cases h
    · obtain ⟨a, _, h⟩ := List.mem_map.1 hb; cases h
    · obtain ⟨lab, c, h⟩ := htags _ hb; cases h
  · unfold structuredSegments
    rw [List.countP_append, List.countP_append, List.countP_append,
        List.countP_append, List.countP_append]
    have ha : (scriptPassAux (scriptMatches html) 0).countP isLinkSeg = 0 := by
      rw [hscript]; exact countP_map_const_false _ _ (fun _ => rfl) _
    have hb := hmeta0 isLinkSeg (fun _ => rfl)
    have hc : (linkPassAux (linkMatches html) 0).countP isLinkSeg ≤ 50 := by
      calc (linkPassAux (linkMatches html) 0).countP isLinkSeg
          ≤ (linkPassAux (linkMatches html) 0).length := List.countP_le_length _
        _ ≤ 50 := by
            rw [hlink, List.length_map]
            simp [List.length_take_le]
    have hd := hform0 isLinkSeg (fun _ => rfl)
    have he := hinput0 isLinkSeg (fun _ => rfl)
    have hf := htag0 isLinkSeg (fun _ _ => rfl)
    omega

/-- C4 witness: a two-character document has empty structured output and is
answered by the fallback block. -/
theorem C4_extract_fallback_witness :
    ((structuredText "ab".data).length < 500) ∧
    extractTextFromHTML "ab".data =
      "[HTML CONTENT]\n".data ++ (cleanHtml "ab".data).take 30000 ++ "\n[/HTML CONTENT]".data :=
  ⟨by decide, C4_extract_fallback "ab".data (by decide)⟩

/-! ### Substring machinery for message-containment statements -/

theorem seqStartsWith_append_self (p t : Str) : seqStartsWith p (p ++ t) = true := by
  induction p with
  | nil => rfl
  | cons c cs ih => simp [seqStartsWith, ih]

theorem seqStartsWith_mono (p : Str) : ∀ t y, seqStartsWith p t = true →
    seqStartsWith p (t ++ y) = true := by
  induction p with
  | nil => intro t y _; rfl
  | cons c cs ih =>
    intro t y h
    cases t with
    | nil => simp [seqStartsWith] at h
    | cons d ds =>
      simp only [seqStartsWith, Bool.and_eq_true] at h
      simp [seqStartsWith, h.1, ih ds y h.2]

theorem containsSeq_nil (l : Str) : containsSeq [] l = true := by
  cases l <;> rfl

theorem containsSeq_mono_left (p t : Str) (h : containsSeq p t = true) :
    ∀ x : Str, containsSeq p (x ++ t) = true := by
  intro x
  induction x with
  | nil => simpa using h
  | cons c cs ih => simp [containsSeq, ih]

theorem containsSeq_mono_right (p : Str) : ∀ t y, containsSeq p t = true →
    containsSeq p (t ++ y) = true := by
  intro t
  induction t with
  | nil =>
    intro y h
    cases p with
    | nil => exact containsSeq_nil y
    | cons c cs => simp [containsSeq, seqStartsWith] at h
  | cons d ds ih =>
    intro y h
    simp only [containsSeq, Bool.or_eq_true] at h
    rcases h with h | h
    · simp only [List.cons_append, containsSeq, Bool.or_eq_true]
      exact Or.inl (seqStartsWith_mono p (d :: ds) y h)
    · simp only [List.cons_append, containsSeq, Bool.or_eq_true]
      exact Or.inr (ih y h)

theorem containsSeq_refl_append (p y : Str) : containsSeq p (p ++ y) = true := by
  cases p with
  | nil => exact containsSeq_nil y
  | cons c cs =>
    simp only [List.cons_append, containsSeq, Bool.or_eq_true]
    exact Or.inl (seqStartsWith_append_self (c :: cs) y)

theorem containsSeq_self_entry (name msg : Str) :
    containsSeq name (logEntry name msg) = true := by
  have h2 : containsSeq name (name ++ ("]: ".data ++ msg ++ ". ".data)) = true :=
    containsSeq_refl_append name _
  have h3 := containsSeq_mono_left name _ h2 ['[']
  simpa [logEntry, List.append_assoc] using h3

/-! ### Claim theorems: model-fallback loop -/

/-- C2 counterexample: a backend that returns an empty response is attempted
yet contributes no entry to the diagnostic log, which stays empty, so the
aggregate error message raised afterwards does not name it either. -/
theorem C2_counterexample :
    (runModels [("m1".data, ModelOutcome.ok [])]).attempted = ["m1".data] ∧
    (runModels [("m1".data, ModelOutcome.ok [])]).errorLog = [] ∧
    containsSeq "m1".data (runModels [("m1".data, ModelOutcome.ok [])]).errorLog = false ∧
    (runModels [("m1".data, ModelOutcome.ok [])]).outcome = .error exhaustMsg := by
  refine ⟨rfl, rfl, rfl, rfl⟩

/-- C2 amended: every attempted backend that raises an exception appends an
entry naming it to the diagnostic log before the next backend is tried
(backends returning empty text are skipped without a log entry), and when
every backend of a three-element list throws, the raised error message
contains the entry of each of the three. -/
theorem C2_amended_failures_logged :
    (∀ name m rest log att,
        runModelsAux ((name, ModelOutcome.err m) :: rest) log att =
          runModelsAux rest (log ++ logEntry name m) (att ++ [name])) ∧
    (∀ a ma b mb c mc : Str,
        ∃ msg,
          (runModels [(a, .err ma), (b, .err mb), (c, .err mc)]).outcome = .error msg ∧
          containsSeq a msg = true ∧ containsSeq b msg = true ∧ containsSeq c msg = true) := by
  constructor
  · intro name m rest log att; rfl
  · intro a ma b mb c mc
    refine ⟨exhaustMsg ++ logEntry a ma ++ logEntry b mb ++ logEntry c mc, ?_, ?_, ?_, ?_⟩
    · simp [runModels, runModelsAux, List.append_assoc]
    · exact containsSeq_mono_right _ _ _ (containsSeq_mono_right _ _ _
        (containsSeq_mono_left _ _ (containsSeq_self_entry a ma) exhaustMsg))
    · exact containsSeq_mono_right _ _ _
        (containsSeq_mono_left _ _ (containsSeq_self_entry b mb) (exhaustMsg ++ logEntry a ma))
    · exact containsSeq_mono_left _ _ (containsSeq_self_entry c mc)
        (exhaustMsg ++ logEntry a ma ++ logEntry b mb)

/-- C3: when the first two backends throw and the third returns non-empty
text, the loop stops at the third with exactly its text, no later backend is
invoked, and the accumulated failure log names the first two backends. -/
theorem C3_first_success_wins (a ma b mb c t : Str)
    (rest : List (Str × ModelOutcome)) (h : t ≠ []) :
    runModels ([(a, .err ma), (b, .err mb), (c, .ok t)] ++ rest) =
      ⟨.ok t, [a, b, c], logEntry a ma ++ logEntry b mb⟩ ∧
    containsSeq a (logEntry a ma ++ logEntry b mb) = true ∧
    containsSeq b (logEntry a ma ++ logEntry b mb) = true := by
  have ht : t.isEmpty = false := by
    cases t with
    | nil => exact absurd rfl h
    | cons x xs => rfl
  refine ⟨?_, ?_, ?_⟩
  · simp [runModels, runModelsAux, ht]
  · exact containsSeq_mono_right _ _ _ (containsSeq_self_entry a ma)
  · exact containsSeq_mono_left _ _ (containsSeq_self_entry b mb) (logEntry a ma)

/-- C3 witness at a concrete four-backend list. -/
theorem C3_first_success_wins_witness :
    ("ok".data ≠ ([] : Str)) ∧
    (runModels ([("m1".data, .err "e1".data), ("m2".data, .err "e2".data),
        ("m3".data, .ok "ok".data)] ++ [("m4".data, .err "e4".data)]) =
      ⟨.ok "ok".data, ["m1".data, "m2".data, "m3".data],
        logEntry "m1".data "e1".data ++ logEntry "m2".data "e2".data⟩ ∧
    containsSeq "m1".data (logEntry "m1".data "e1".data ++ logEntry "m2".data "e2".data) = true ∧
    containsSeq "m2".data (logEntry "m1".data "e1".data ++ logEntry "m2".data "e2".data) = true) :=
  ⟨by decide, C3_first_success_wins "m1".data "e1".data "m2".data "e2".data "m3".data "ok".data
    [("m4".data, .err "e4".data)] (by decide)⟩

/-! ### Claim theorems: response parser and fetch classification -/

theorem splitFirst_append_of_not_mem (c : Char) (pre tl : Str)
    (h : ∀ x ∈ pre, x ≠ c) :
    splitFirst c (pre ++ c :: tl) = some (pre, tl) := by
  induction pre with
  | nil => simp [splitFirst]
  | cons x xs ih =>
    have hx : x ≠ c := h x (by simp)
    have ih2 := ih (fun y hy => h y (by simp [hy]))
    simp [splitFirst, hx, ih2]

/-- C6: for a model reply made of leading prose without brace characters
followed by a balanced JSON object ending the reply, the handler extracts
exactly the object span (which `JSON.parse` then receives unchanged),
ignoring the prose. -/
theorem C6_parser_extracts_object (prose mid : Str)
    (h : ∀ ch ∈ prose, ch ≠ '\x7b' ∧ ch ≠ '\x7d') :
    extractJsonCandidate (prose ++ '\x7b' :: (mid ++ ['\x7d'])) =
      '\x7b' :: (mid ++ ['\x7d']) := by
  unfold extractJsonCandidate
  rw [splitFirst_append_of_not_mem _ _ _ (fun x hx => (h x hx).1)]
  have hrev : (mid ++ ['\x7d']).reverse = '\x7d' :: mid.reverse := by simp
  simp [hrev, splitFirst]

/-- C6 witness on a concrete prose-plus-object reply. -/
theorem C6_parser_extracts_object_witness :
    (∀ ch ∈ "Sure, here is the audit: ".data, ch ≠ '\x7b' ∧ ch ≠ '\x7d') ∧
    extractJsonCandidate ("Sure, here is the audit: ".data ++
        '\x7b' :: ("\"defects\":[]".data ++ ['\x7d'])) =
      '\x7b' :: ("\"defects\":[]".data ++ ['\x7d']) :=
  ⟨by decide, C6_parser_extracts_object "Sure, here is the audit: ".data
    "\"defects\":[]".data (by decide)⟩

/-- C8: every non-success HTTP status makes the fetch fail at once with a
classified error: 403 names 403 and blocking, 429 names rate limiting and
advises retrying later, 400 names a rejected or invalid request, and every
other status is reported with its number and status text. -/
theorem C8_status_classified (status : Nat) (statusText : Str)
    (h : ¬ (200 ≤ status ∧ status ≤ 299)) :
    ∃ msg, checkResponseStatus status statusText = Except.error msg ∧
      (status = 403 → containsSeq "403".data msg = true ∧
        containsSeq "bloqueando".data msg = true) ∧
      (status = 429 → containsSeq "429".data msg = true ∧
        containsSeq "limitando".data msg = true ∧
        containsSeq "intentá de nuevo".data msg = true) ∧
      (status = 400 → containsSeq "400".data msg = true ∧
        containsSeq "Solicitud inválida".data msg = true) ∧
      (status ≠ 403 → status ≠ 429 → status ≠ 400 →
        msg = "HTTP ".data ++ (Nat.repr status).data ++ ": ".data ++ statusText) := by
  refine ⟨httpStatusMsg status statusText, ?_, ?_, ?_, ?_, ?_⟩
  · unfold checkResponseStatus
    rw [if_neg h]
  · intro h403; subst h403; exact ⟨rfl, rfl⟩
  · intro h429; subst h429; exact ⟨rfl, rfl, rfl⟩
  · intro h400; subst h400; exact ⟨rfl, rfl⟩
  · intro h1 h2 h3
    unfold httpStatusMsg
    rw [if_neg h1, if_neg h2, if_neg h3]

/-- C8 witness at status 403. -/
theorem C8_status_classified_witness :
    (¬ (200 ≤ 403 ∧ 403 ≤ 299)) ∧
    (∃ msg, checkResponseStatus 403 "Forbidden".data = Except.error msg ∧
      (403 = 403 → containsSeq "403".data msg = true ∧
        containsSeq "bloqueando".data msg = true) ∧
      (403 = 429 → containsSeq "429".data msg = true ∧
        containsSeq "limitando".data msg = true ∧
        containsSeq "intentá de nuevo".data msg = true) ∧
      (403 = 400 → containsSeq "400".data msg = true ∧
        containsSeq "Solicitud inválida".data msg = true) ∧
      (403 ≠ 403 → 403 ≠ 429 → 403 ≠ 400 →
        msg = "HTTP ".data ++ (Nat.repr 403).data ++ ": ".data ++ "Forbidden".data)) :=
  ⟨by decide, C8_status_classified 403 "Forbidden".data (by decide)⟩

/-! ### Claim theorems: route handler -/

theorem runModelsAux_all_err (bs : List (Str × ModelOutcome))
    (h : ∀ p ∈ bs, ∃ m', p.2 = ModelOutcome.err m') :
    ∀ log att, ∃ msg, (runModelsAux bs log att).outcome = .error msg := by
  induction bs with
  | nil => intro log att; exact ⟨exhaustMsg ++ log, rfl⟩
  | cons p ps ih =>
    intro log att
    obtain ⟨name, o⟩ := p
    obtain ⟨m', hm⟩ := h (name, o) (by simp)
    simp only at hm
    subst hm
    exact ih (fun q hq => h q (by simp [hq])) _ _

/-- C9: a request whose content to analyse is empty or whitespace-only is
answered with 400 — an error message and empty passedTests, defects and
testScript — with no inference backend invoked. -/
theorem C9_empty_content_rejected (env : Env) (b : RequestBody) (c : Str)
    (hk : env.hasApiKey = true) (hb : env.bodyJson = Except.ok b)
    (hc : contentToAnalyzeOf env b = some c) (hempty : jsTrim c = []) :
    handleAudit env = ⟨⟨400, emptyContentBody⟩, []⟩ := by
  by_cases hurl : b.reqType = "url".data
  · unfold contentToAnalyzeOf at hc
    rw [if_pos hurl] at hc
    cases hscr : env.scrapeResult with
    | error m => rw [hscr] at hc; cases hc
    | ok s =>
      rw [hscr] at hc
      obtain rfl : s = c := by injection hc
      simp [handleAudit, hk, hb, hurl, hscr, hempty]
  · unfold contentToAnalyzeOf at hc
    rw [if_neg hurl] at hc
    obtain rfl : b.content = c := by injection hc
    simp [handleAudit, hk, hb, hurl, hempty]

/-- C9 witness: a whitespace-only code snippet. -/
theorem C9_empty_content_rejected_witness :
    (jsTrim "   ".data = []) ∧
    handleAudit envBlankSnippet = ⟨⟨400, emptyContentBody⟩, []⟩ :=
  ⟨by decide, C9_empty_content_rejected envBlankSnippet ⟨"code".data, "   ".data⟩
    "   ".data rfl rfl rfl (by decide)⟩

/-- C7 counterexample: with the first backend succeeding but answering text
that yields no parseable JSON, the handler still responds 429, although the
backends were not exhausted (only one was invoked and it returned text). -/
theorem C7_counterexample :
    (handleAudit envBadReply).response.status = 429 ∧
    (runModels (modelIds.map fun n => (n, envBadReply.behavior n))).outcome =
      .ok "hello".data ∧
    (handleAudit envBadReply).invoked = ["gemini-3-flash-preview".data] :=
  ⟨rfl, rfl, rfl⟩

/-- C7 amended: on any request that passes validation — url and code alike —
the handler responds 429 with the fixed quota body (an error field plus
remediation text) whenever the audit attempt fails: in particular when every
inference backend throws (exhaustion), and likewise when a backend reply
fails JSON parsing, which lands in the same generic catch rather than being
distinguished. -/
theorem C7_amended_quota_429 (env : Env) (b : RequestBody) (c : Str)
    (hk : env.hasApiKey = true) (hb : env.bodyJson = Except.ok b)
    (hc : contentToAnalyzeOf env b = some c) (hne : jsTrim c ≠ []) :
    ((∀ n, ∃ m', env.behavior n = ModelOutcome.err m') →
      (handleAudit env).response = ⟨429, quotaBody⟩) ∧
    (∀ text, (runModels (modelIds.map fun n => (n, env.behavior n))).outcome = Except.ok text →
      jsonParses (extractJsonCandidate text) = false →
      (handleAudit env).response = ⟨429, quotaBody⟩) := by
  have hie : (jsTrim c).isEmpty = false := by
    cases hh : jsTrim c with
    | nil => exact absurd hh hne
    | cons x xs => rfl
  by_cases hurl : b.reqType = "url".data
  · unfold contentToAnalyzeOf at hc
    rw [if_pos hurl] at hc
    cases hscr : env.scrapeResult with
    | error m => rw [hscr] at hc; cases hc
    | ok s =>
      rw [hscr] at hc
      obtain rfl : s = c := by injection hc
      constructor
      · intro hall
        obtain ⟨msg, hmsg⟩ := runModelsAux_all_err (modelIds.map fun n => (n, env.behavior n))
          (by
            intro p hp
            obtain ⟨n, _, rfl⟩ := List.mem_map.1 hp
            exact hall n) [] []
        simp [handleAudit, hk, hb, hurl, hscr, hie, runModels, hmsg]
      · intro text htext hparse
        simp only [runModels] at htext
        simp [handleAudit, hk, hb, hurl, hscr, hie, runModels, htext, hparse]
  · unfold contentToAnalyzeOf at hc
    rw [if_neg hurl] at hc
    obtain rfl : b.content = c := by injection hc
    constructor
    · intro hall
      obtain ⟨msg, hmsg⟩ := runModelsAux_all_err (modelIds.map fun n => (n, env.behavior n))
        (by
          intro p hp
          obtain ⟨n, _, rfl⟩ := List.mem_map.1 hp
          exact hall n) [] []
      simp [handleAudit, hk, hb, hurl, hie, runModels, hmsg]
    · intro text htext hparse
      simp only [runModels] at htext
      simp [handleAudit, hk, hb, hurl, hie, runModels, htext, hparse]

/-- C7 witness: the exhaustion path answers 429 with the quota body on a url
request and on a code request, and the malformed-reply path does likewise. -/
theorem C7_amended_quota_429_witness :
    (handleAudit envUrlThrow).response = ⟨429, quotaBody⟩ ∧
    (handleAudit envAllThrow).response = ⟨429, quotaBody⟩ ∧
    (handleAudit envBadReply).response = ⟨429, quotaBody⟩ :=
  ⟨(C7_amended_quota_429 envUrlThrow ⟨"url".data, "example.com".data⟩
      "scraped page content".data rfl rfl rfl (by decide)).1
      (fun n => ⟨"429 Too Many Requests".data, rfl⟩),
   (C7_amended_quota_429 envAllThrow ⟨"code".data, "x".data⟩ "x".data rfl rfl rfl
      (by decide)).1 (fun n => ⟨"429 Too Many Requests".data, rfl⟩),
   (C7_amended_quota_429 envBadReply ⟨"code".data, "x".data⟩ "x".data rfl rfl rfl
      (by decide)).2 "hello".data rfl rfl⟩

end QuartzAI
